import Mathlib

/-!
Shallow embedding of the repository's decision-tree-to-Graphviz renderer
(`trees/plots.py`) and of the CLI plotters' coordinate-splitting logic
(`cli/example_click.py` / `cli/example_fire.py`), together with theorems
settling the specification claims.

Modelling conventions:
* Python floats are modelled as exact rationals (`ℚ`); `int(x)` on a
  non-negative value is `⌊x⌋`.  The one place where binary64 rounding is
  observable at the claims' granularity — the element count of
  `np.arange(25, 385, 360. / n)`, which exceeds `n` for some `n` — is
  modelled exactly (`fl64Pair`, `arangeLen`).
* Python exceptions (IndexError on out-of-range list lookups, the
  ValueError of the `[(a, b)] = ...` destructuring on an empty
  `most_common(1)`, ZeroDivisionError) are modelled by `Option`: `none`
  means the call raises.
* The process-global random source behind `node_id` is modelled by an
  explicit stream `ids : ℕ → String`; the k-th call of `node_id` during a
  render returns `ids k`.
* `StringIO` and file handles are modelled by `Handle`: both buffer the
  written text, but only `StringIO` supports `getvalue()` (a real Python
  file object has no such method, which matters for `create_graph`).
-/

namespace Blog

/-- A decision-tree node, after `trees/plots.py`'s expectations of its
input: `is_leaf` flag, `feature` index, the overloaded `value` field
(class index `valueClass` when leaf, split threshold `valueSplit` when
internal), `gini`, the ordered class-count mapping `counts` (a
`collections.Counter` in insertion order), and optional children. -/
inductive TreeNode where
  | mk (is_leaf : Bool) (feature : ℕ) (valueClass : ℕ) (valueSplit : ℚ)
      (gini : ℚ) (counts : List (ℕ × ℕ))
      (left : Option TreeNode) (right : Option TreeNode)

def TreeNode.is_leaf : TreeNode → Bool
  | .mk lf _ _ _ _ _ _ _ => lf

def TreeNode.feature : TreeNode → ℕ
  | .mk _ ft _ _ _ _ _ _ => ft

def TreeNode.valueClass : TreeNode → ℕ
  | .mk _ _ vc _ _ _ _ _ => vc

def TreeNode.valueSplit : TreeNode → ℚ
  | .mk _ _ _ vs _ _ _ _ => vs

def TreeNode.gini : TreeNode → ℚ
  | .mk _ _ _ _ g _ _ _ => g

def TreeNode.counts : TreeNode → List (ℕ × ℕ)
  | .mk _ _ _ _ _ cs _ _ => cs

def TreeNode.left : TreeNode → Option TreeNode
  | .mk _ _ _ _ _ _ l _ => l

def TreeNode.right : TreeNode → Option TreeNode
  | .mk _ _ _ _ _ _ _ r => r

/-- `Counter.most_common(1)` destructured by `[(a, b)] = ...`: the first
key (in insertion order) with the maximal count, or `none` (a Python
ValueError) when the counter is empty. -/
def mostCommon1 : List (ℕ × ℕ) → Option (ℕ × ℕ)
  | [] => none
  | p :: rest => some (rest.foldl (fun best q => if best.2 < q.2 then q else best) p)

/-- Sum of the values of the class-count mapping: `sum(node.counts.values())`. -/
def countsTotal (counts : List (ℕ × ℕ)) : ℕ :=
  (counts.map (·.2)).sum

/-- The `hex_codes` table of `to_hexadecimal`: ten digits extended with
`a`–`f`. -/
def hex_codes : List String :=
  [toString 0, toString 1, toString 2, toString 3, toString 4,
   toString 5, toString 6, toString 7, toString 8, toString 9,
   "a", "b", "c", "d", "e", "f"]

/-- The list comprehension of `to_hexadecimal`, evaluated left to right:
each channel `c` contributes `hex_codes[c // 16] + hex_codes[c % 16]`;
the first out-of-range lookup raises IndexError (modelled by `none`). -/
def hexPairs : List ℕ → Option (List String)
  | [] => some []
  | c :: rest => do
    let hi ← hex_codes.get? (c / 16)
    let lo ← hex_codes.get? (c % 16)
    let tail ← hexPairs rest
    pure ((hi ++ lo) :: tail)

/-- `to_hexadecimal(values)`: the per-channel hex pairs joined behind a
`'#'` marker; raises (yields `none`) when some channel is `≥ 256`. -/
def to_hexadecimal (values : List ℕ) : Option String := do
  let color ← hexPairs values
  pure ("#" ++ String.join color)

/-- Python's `abs` on an exact rational. -/
def ratAbs (q : ℚ) : ℚ := if q < 0 then -q else q

/-- Python's `%` on rationals as used for `h_bar % 2`: `q - 2 * ⌊q / 2⌋`. -/
def ratMod2 (q : ℚ) : ℚ := q - 2 * ((q / 2).floor : ℚ)

/-- Fuel-driven integer base-2 logarithm: with fuel at least `n`,
`natLog2F fuel n` computes `⌊log2 n⌋` for `n ≥ 1` (structural in the
fuel so that it evaluates inside the kernel). -/
def natLog2F : ℕ → ℕ → ℕ
  | 0, _ => 0
  | fuel + 1, n => if n ≤ 1 then 0 else natLog2F fuel (n / 2) + 1

/-- Integer base-2 logarithm `⌊log2 n⌋` for `n ≥ 1`. -/
def natLog2 (n : ℕ) : ℕ := natLog2F n n

/-- Round `a / b` (for `b ≥ 1`) to the nearest integer, ties to even —
IEEE 754 round-to-nearest-even at mantissa scale. -/
def roundEvenPair (a b : ℕ) : ℕ :=
  let q := a / b
  let r := a % b
  if 2 * r < b then q
  else if b < 2 * r then q + 1
  else if q % 2 = 0 then q else q + 1

/-- Binade exponent `⌊log2 (a / b)⌋` for `a, b ≥ 1`. -/
def floorLog2Pair (a b : ℕ) : ℤ :=
  let e : ℤ := (natLog2 a : ℤ) - (natLog2 b : ℤ)
  if 0 ≤ e then (if b * 2 ^ e.toNat ≤ a then e else e - 1)
  else (if b ≤ a * 2 ^ (-e).toNat then e else e - 1)

/-- The binary64 (IEEE 754 double, round-to-nearest-even) value nearest
to `a / b` for `a, b ≥ 1` in the normal range, as a dyadic pair
`(num, scale)` of value `num / 2 ^ scale`: the mantissa is the 53-bit
rounding of `a / b` scaled into `[2^52, 2^53)`.  This is the result of
one double division such as CPython's `360. / n` or numpy's
`360.0 / step`. -/
def fl64Pair (a b : ℕ) : ℕ × ℕ :=
  let E := floorLog2Pair a b
  if 52 ≤ E then
    (roundEvenPair a (b * 2 ^ (E - 52).toNat) * 2 ^ (E - 52).toNat, 0)
  else
    (roundEvenPair (a * 2 ^ (52 - E).toNat) b, (52 - E).toNat)

/-- The element count of `np.arange(25, 385, 360. / n)` as numpy
computes it for doubles: `ceil((385.0 - 25.0) / step)` in binary64 with
`step = 360. / n` the binary64 quotient.  The subtraction
`385.0 - 25.0 = 360.0` is exact; `step` and the division `360.0 / step`
each round, so the count exceeds `n` for some `n` — the smallest being
161, where `step = 314692520546075 / 2^47` rounds down and
`360.0 / step` rounds to just above 161, making the ceiling 162. -/
def arangeLen (n : ℕ) : ℕ :=
  let step := fl64Pair 360 n
  let quot := fl64Pair (360 * 2 ^ step.2) step.1
  (quot.1 + 2 ^ quot.2 - 1) / 2 ^ quot.2

/-- The hue samples of `_color_brew`: `np.arange(25, 385, 360. / n)`.
The element count is numpy's binary64 count `arangeLen n` (which is `n`
for most `n` but `n + 1` for `n = 161, 175, 227, …`); the sample values
are modelled as the exact `25 + k * (360 / n)` — the binary64 values
differ from these by less than one part in `2^45`, the per-hue channel
bounds proved below hold for every truncated hue whatsoever, and the
concrete palettes evaluated below (`n = 1`) are exactly representable. -/
def brewHues (n : ℕ) : List ℚ :=
  (List.range (arangeLen n)).map (fun (k : ℕ) => 25 + (k : ℚ) * (360 / (n : ℚ)))

/-- `_color_brew`'s saturation: `s = 0.75`. -/
def brew_s : ℚ := 3 / 4

/-- `_color_brew`'s value: `v = 0.9`. -/
def brew_v : ℚ := 9 / 10

/-- `_color_brew`'s chroma: `c = s * v`. -/
def brew_c : ℚ := brew_s * brew_v

/-- `_color_brew`'s value shift: `m = v - c`. -/
def brew_m : ℚ := brew_v - brew_c

/-- `_color_brew`'s intermediate `x = c * (1 - abs((h_bar % 2) - 1))`
where `h_bar = h / 60.` for the truncated hue `h`. -/
def brew_x (h : ℕ) : ℚ :=
  brew_c * (1 - ratAbs (ratMod2 ((h : ℚ) / 60) - 1))

/-- `_color_brew`'s seven-entry hue-segment table `rgb`. -/
def brewRGBTable (h : ℕ) : List (ℚ × ℚ × ℚ) :=
  [(brew_c, brew_x h, 0), (brew_x h, brew_c, 0), (0, brew_c, brew_x h),
   (0, brew_x h, brew_c), (brew_x h, 0, brew_c), (brew_c, 0, brew_x h),
   (brew_c, brew_x h, 0)]

/-- One output channel of `_color_brew`: `int(255 * (t + m))` (the value
is non-negative, so truncation is the floor). -/
def brewChannel (t : ℚ) : ℕ :=
  (255 * (t + brew_m)).floor.toNat

/-- The body of `_color_brew`'s loop for one truncated hue `h`
(`astype(int)` has already been applied): `r, g, b = rgb[int(h_bar)]`
followed by the value shift of each channel. -/
def brewColor (h : ℕ) : List ℕ :=
  let rgb0 := (brewRGBTable h).getD (h / 60) (0, 0, 0)
  [brewChannel rgb0.1, brewChannel rgb0.2.1, brewChannel rgb0.2.2]

/-- `_color_brew(n)`: one RGB triple per hue sample, the hue truncated to
an integer by `astype(int)` (the hues are positive, so truncation is the
floor). -/
def _color_brew (n : ℕ) : List (List ℕ) :=
  (brewHues n).map (fun hq => brewColor hq.floor.toNat)

/-- Python's `'%2.2f' % q` on an exact rational: round `100 * q` to the
nearest integer (ties to even) and print with two decimal digits. -/
def fmt2 (q : ℚ) : String :=
  let scaled : ℚ := 100 * q
  let f : ℤ := scaled.floor
  let n : ℤ :=
    if scaled - f < 1 / 2 then f
    else if (1 : ℚ) / 2 < scaled - f then f + 1
    else if f % 2 = 0 then f else f + 1
  let sign := if n < 0 then "-" else ""
  let a := n.natAbs
  let r := a % 100
  sign ++ toString (a / 100) ++ "." ++ (if r < 10 then "0" else "") ++ toString r

/-- `node_to_str(node)` from the closure inside `create_graph`: a leaf is
labelled by `class_names[node.value]`; an internal node by four lines —
`'samples: %s'` of the counts total (identical to `'%d'` on an integer),
`'gini: %2.2f'`, `'ratio: %2.2f'` of most-frequent count over total, and
`'%s <= %2.2f'` of the feature name and threshold.  A failed name lookup,
empty counts, or a zero total (ZeroDivisionError in `num / total`) raises,
i.e. yields `none`. -/
def node_to_str (feature_names class_names : List String) (node : TreeNode) :
    Option String :=
  if node.is_leaf then
    class_names.get? node.valueClass
  else do
    let name ← feature_names.get? node.feature
    let total := countsTotal node.counts
    let cn ← mostCommon1 node.counts
    if total = 0 then none
    else
      let ratio : ℚ := (cn.2 : ℚ) / (total : ℚ)
      let lines := [
        "samples: " ++ toString total,
        "gini: " ++ fmt2 node.gini,
        "ratio: " ++ fmt2 ratio,
        name ++ " <= " ++ fmt2 node.valueSplit]
      pure (String.intercalate "\n" lines)

/-- `get_node_color(node)` from the closure inside `create_graph`: a leaf
gets `to_hexadecimal(colors[node.value])`; an internal node gets the
majority class's palette color extended with an alpha channel
`int(255 * count / total)` (floor of the exact ratio). -/
def get_node_color (colors : List (List ℕ)) (node : TreeNode) : Option String :=
  if node.is_leaf then do
    let rgb ← colors.get? node.valueClass
    to_hexadecimal rgb
  else do
    let cn ← mostCommon1 node.counts
    let total := countsTotal node.counts
    let rgb ← colors.get? cn.1
    if total = 0 then none
    else
      let alpha := (255 * cn.2) / total
      to_hexadecimal (rgb ++ [alpha])

/-- One `file.write` of the recursive `create`: a node statement
`<uid> [label="...", fillcolor="..."];` or an edge statement
`<parent> -> <child> [label=..., ...];`. -/
inductive Stmt where
  | node (uid label color : String)
  | edge (parent child elabel : String)
deriving DecidableEq

/-- The exact text each statement write produces. -/
def stmtText : Stmt → String
  | .node uid label color =>
      uid ++ " [label=\"" ++ label ++ "\", fillcolor=\"" ++ color ++ "\"];\n"
  | .edge parent child elabel =>
      parent ++ " -> " ++ child ++
        " [label=" ++ elabel ++ ", labeldistance=2.5, labelangle=45];\n"

/-- The recursive `create(node, file)` of `create_graph`, with the writes
reified as a statement list.  `ids k` is the value of the k-th `node_id()`
call of the render (the random source made explicit); the node consumes
one ID and is emitted before its children (pre-order), the left child
before the right, a `yes` edge after the left subtree and a `no` edge
after the right subtree.  Returns the node's uid, its statements, and the
next unused ID index; `none` when a lookup inside `node_to_str` /
`get_node_color` raises. -/
def create (feature_names class_names : List String) (colors : List (List ℕ))
    (ids : ℕ → String) :
    TreeNode → ℕ → Option (String × List Stmt × ℕ)
  | .mk lf ft vc vs g cnts l r, k =>
    match node_to_str feature_names class_names (.mk lf ft vc vs g cnts l r),
          get_node_color colors (.mk lf ft vc vs g cnts l r) with
    | some label, some color =>
      let uid := ids k
      let base : List Stmt := [Stmt.node uid label color]
      if lf then some (uid, base, k + 1)
      else
        match l, r with
        | none, none => some (uid, base, k + 1)
        | none, some rc =>
          (create feature_names class_names colors ids rc (k + 1)).bind
            (fun res =>
              some (uid, base ++ res.2.1 ++ [Stmt.edge uid res.1 "no"], res.2.2))
        | some lc, none =>
          (create feature_names class_names colors ids lc (k + 1)).bind
            (fun res =>
              some (uid, base ++ res.2.1 ++ [Stmt.edge uid res.1 "yes"], res.2.2))
        | some lc, some rc =>
          (create feature_names class_names colors ids lc (k + 1)).bind
            (fun lres =>
              (create feature_names class_names colors ids rc lres.2.2).bind
                (fun rres =>
                  some (uid,
                    (base ++ lres.2.1 ++ [Stmt.edge uid lres.1 "yes"])
                      ++ rres.2.1 ++ [Stmt.edge uid rres.1 "no"], rres.2.2)))
    | _, _ => none
termination_by t _ => sizeOf t
decreasing_by all_goals (simp_wf; omega)

/-- The output sink of `create_graph`: `StringIO()` when `output_file` is
`None`, otherwise `open(output_file, 'w')`.  Both buffer writes, but only
`StringIO` has a `getvalue()` method — calling `getvalue()` on a real
file object raises AttributeError, modelled by `none`. -/
structure Handle where
  buffer : String
  isStringIO : Bool
deriving DecidableEq

def Handle.write (h : Handle) (s : String) : Handle :=
  { h with buffer := h.buffer ++ s }

def Handle.getvalue (h : Handle) : Option String :=
  if h.isStringIO then some h.buffer else none

/-- The `styling` dict of `create_graph`, in insertion order. -/
def styling : List (String × String) :=
  [("shape", "box"), ("style", "filled, rounded"), ("color", "black")]

/-- `create_graph(tree, feature_names, class_names, output_file)`.
Result: `(returned, written)` where `returned` is the function's return
value (`none` when a Python exception escapes) and `written` is the final
content of the file at `output_file` when a path was given (`none` when
no path was given, and also — unmodelled partial content — when the
traversal itself raised midway).  On the file path the source calls
`fp.getvalue()` on a plain file handle, which raises AttributeError after
the complete document has been written. -/
def create_graph (tree : TreeNode) (feature_names class_names : List String)
    (output_file : Option String) (ids : ℕ → String) :
    Option String × Option String :=
  let colors := _color_brew class_names.length
  let fp : Handle := { buffer := "", isStringIO := output_file.isNone }
  let styles := styling.map (fun kv => kv.1 ++ "=\"" ++ kv.2 ++ "\"")
  let fp := fp.write "digraph Tree \x7b\n"
  let fp := fp.write ("node [" ++ String.intercalate ", " styles ++ "];\n")
  match create feature_names class_names colors ids tree 0 with
  | none => (none, none)
  | some (_, stmts, _) =>
    let fp := (stmts.map stmtText).foldl Handle.write fp
    let fp := fp.write "\x7d"
    (fp.getvalue, if output_file.isSome then some fp.buffer else none)

/-- `points[::2]`: every second element starting from the first. -/
def everySecond {α : Type} : List α → List α
  | [] => []
  | [x] => [x]
  | x :: _ :: rest => x :: everySecond rest

/-- `Plotter.scatter`'s coordinate-splitting step, identical in
`cli/example_click.py` and `cli/example_fire.py`: an odd-length flat
point sequence is truncated by one, then even positions become xs and odd
positions become ys. -/
def scatterSplit {α : Type} (points : List α) : List α × List α :=
  let n0 := points.length
  let n := if n0 % 2 ≠ 0 then n0 - 1 else n0
  let points := points.take n
  (everySecond points, everySecond (points.drop 1))

/-! Observables used by the theorems below: edge extraction, the
ID-independent part of a statement, and a decoder for hex color strings. -/

/-- Whether a statement is an edge statement. -/
def isEdge : Stmt → Bool
  | .edge _ _ _ => true
  | .node _ _ _ => false

/-- The edge statements of an emitted statement list, in order. -/
def edgesOf (stmts : List Stmt) : List Stmt :=
  stmts.filter isEdge

/-- A statement with the random node IDs erased: what remains of a node
statement is its label text and fill color, of an edge statement its
`yes`/`no` label. -/
inductive StmtShape where
  | node (label color : String)
  | edge (elabel : String)
deriving DecidableEq

/-- Erase the random node IDs from a statement. -/
def stmtKey : Stmt → StmtShape
  | .node _ label color => .node label color
  | .edge _ _ elabel => .edge elabel

/-- The sixteen lowercase hexadecimal digit characters. -/
def hexDigitChars : List Char :=
  String.toList "0123456789abcdef"

/-- The hexadecimal digit character of a value `d < 16`. -/
def hexChar (d : ℕ) : Char :=
  hexDigitChars.getD d ' '

/-- The numeric value of a lowercase hexadecimal digit character. -/
def hexCharVal (ch : Char) : ℕ :=
  hexDigitChars.indexOf ch

/-- Decode consecutive pairs of hexadecimal digit characters back into
byte values (the inverse of `to_hexadecimal`'s per-channel encoding). -/
def decodePairs : List Char → List ℕ
  | d1 :: d2 :: rest => (16 * hexCharVal d1 + hexCharVal d2) :: decodePairs rest
  | _ => []

/-! ## Theorems -/

/-! Bridge lemmas between the computable `Rat.floor` / `ratAbs` used in
the embedding and Mathlib's `⌊⌋` / `|·|`. -/

lemma ratFloor_eq (q : ℚ) : q.floor = ⌊q⌋ := by
  rw [Rat.floor_def']
  exact (Rat.floor_def).symm

lemma floor_eval (q : ℚ) (n : ℤ) (h1 : (n : ℚ) ≤ q) (h2 : q < n + 1) :
    q.floor = n := by
  rw [ratFloor_eq]
  exact Int.floor_eq_iff.mpr ⟨h1, h2⟩

lemma ratAbs_eq_abs (q : ℚ) : ratAbs q = |q| := by
  unfold ratAbs
  split
  · exact (abs_of_neg (by assumption)).symm
  · exact (abs_of_nonneg (le_of_not_lt (by assumption))).symm

/-- The `brewColor` triple of hue 25 (the only hue of a one-class
palette), fully evaluated. -/
lemma brewColor_25 : brewColor 25 = [229, 129, 57] := by
  have hm : ratMod2 (((25 : ℕ) : ℚ) / 60) = 25 / 60 := by
    unfold ratMod2
    rw [show ((((25 : ℕ) : ℚ) / 60) / 2) = 25 / 120 by push_cast; norm_num]
    rw [floor_eval ((25 : ℚ) / 120) 0 (by norm_num) (by norm_num)]
    push_cast
    norm_num
  have ha : ratAbs ((25 : ℚ) / 60 - 1) = 7 / 12 := by
    unfold ratAbs
    rw [if_pos (by norm_num : (25 : ℚ) / 60 - 1 < 0)]
    norm_num
  have hx : brew_x 25 = 9 / 32 := by
    unfold brew_x brew_c brew_s brew_v
    rw [hm, ha]
    norm_num
  unfold brewColor brewRGBTable
  rw [show (25 / 60 : ℕ) = 0 from rfl]
  simp only [List.getD_cons_zero]
  show [brewChannel brew_c, brewChannel (brew_x 25), brewChannel 0] = _
  rw [hx]
  unfold brewChannel brew_m brew_c brew_s brew_v
  simp only [List.cons.injEq, and_true]
  refine ⟨?_, ?_, ?_⟩
  · rw [floor_eval _ 229 (by norm_num) (by norm_num)]
    rfl
  · rw [floor_eval _ 129 (by norm_num) (by norm_num)]
    rfl
  · rw [floor_eval _ 57 (by norm_num) (by norm_num)]
    rfl

/-- The palette for a single class, fully evaluated: the hue sample is
25, and the resulting triple is `[229, 129, 57]`. -/
lemma color_brew_one : _color_brew 1 = [[229, 129, 57]] := by
  unfold _color_brew brewHues
  rw [show arangeLen 1 = 1 from rfl]
  rw [show List.range 1 = [0] from rfl]
  simp only [List.map_cons, List.map_nil, Nat.cast_zero, Nat.cast_one]
  rw [show ((25 : ℚ) + 0 * (360 / 1)) = 25 by norm_num]
  rw [floor_eval (25 : ℚ) 25 (by norm_num) (by norm_num)]
  rw [show (25 : ℤ).toNat = 25 from rfl, brewColor_25]

/-- Evaluation of `create` on a single class-0 leaf against the
one-entry palette: one node statement, no edges. -/
lemma create_leaf_A (fns : List String) (ids : ℕ → String) (k : ℕ) :
    create fns ["A"] [[229, 129, 57]] ids (.mk true 0 0 0 0 [] none none) k
      = some (ids k, [Stmt.node (ids k) "A" "#e58139"], k + 1) := by
  simp only [create]
  rfl

/-- C1: `create_graph` produces the complete graph-description text, and
with `output_file = None` it returns it; but when an output path is
given, although the complete text is written to the file, the final
`fp.getvalue()` is called on a plain file object, which has no such
method, so an AttributeError escapes instead of the text being returned:
evaluated here on a single-leaf tree with `class_names = ["A"]`. -/
theorem create_graph_getvalue :
    create_graph (.mk true 0 0 0 0 [] none none) [] ["A"] none (fun _ => "42")
      = (some ("digraph Tree \x7b\nnode [shape=\"box\", style=\"filled, rounded\", color=\"black\"];\n42 [label=\"A\", fillcolor=\"#e58139\"];\n\x7d"), none)
    ∧ create_graph (.mk true 0 0 0 0 [] none none) [] ["A"] (some "tree.dot") (fun _ => "42")
      = (none, some ("digraph Tree \x7b\nnode [shape=\"box\", style=\"filled, rounded\", color=\"black\"];\n42 [label=\"A\", fillcolor=\"#e58139\"];\n\x7d")) := by
  constructor <;>
    · simp only [create_graph, List.length_cons, List.length_nil, Nat.zero_add,
        color_brew_one]
      rw [create_leaf_A [] (fun _ => "42") 0]
      rfl

/-- C7: rendering a tree that is a single leaf with class index 0 and
`class_names = ["A"]` emits exactly one statement: a node statement
labelled `"A"` (the class name of the leaf's class index) with the
class-0 palette color, and no edge statements — for every random-ID
stream and every feature-name table. -/
theorem create_single_leaf (fns : List String) (ids : ℕ → String) :
    create fns ["A"] (_color_brew (["A"] : List String).length) ids
        (.mk true 0 0 0 0 [] none none) 0
      = some (ids 0, [Stmt.node (ids 0) "A" "#e58139"], 1) := by
  rw [show (["A"] : List String).length = 1 from rfl, color_brew_one]
  exact create_leaf_A fns ids 0

lemma everySecond_length {α : Type} :
    ∀ l : List α, (everySecond l).length = (l.length + 1) / 2
  | [] => by simp [everySecond]
  | [_] => by simp [everySecond]
  | _ :: _ :: rest => by
    simp only [everySecond, List.length_cons, everySecond_length rest]
    omega

/-- C9: the CLI plotters' scatter split always produces xs and ys of
equal length, and on an odd-length flat input it agrees with first
dropping the last value. -/
theorem scatterSplit_spec {α : Type} (points : List α) :
    (scatterSplit points).1.length = (scatterSplit points).2.length
    ∧ (points.length % 2 = 1 →
        scatterSplit points = scatterSplit points.dropLast) := by
  constructor
  · by_cases h : points.length % 2 = 0 <;>
      simp only [scatterSplit, h, ne_eq, not_false_eq_true, not_true_eq_false,
        if_true, if_false, everySecond_length, List.length_take,
        List.length_drop] <;> omega
  · intro hodd
    have hne : points.length % 2 ≠ 0 := by omega
    have hdrop : (points.dropLast).length % 2 = 0 := by
      rw [List.length_dropLast]; omega
    simp only [scatterSplit, hne, hdrop, ne_eq, not_false_eq_true,
      not_true_eq_false, if_true, if_false]
    rw [← List.dropLast_eq_take, List.take_length]

/-- C9 witness: on the odd-length input `[1, 2, 3]` over ℤ the xs and ys
have equal length and the split agrees with the split of `[1, 2]`. -/
theorem scatterSplit_spec_witness :
    (scatterSplit ([1, 2, 3] : List ℤ)).1.length
        = (scatterSplit ([1, 2, 3] : List ℤ)).2.length
    ∧ scatterSplit ([1, 2, 3] : List ℤ) = scatterSplit ([1, 2, 3] : List ℤ).dropLast :=
  ⟨(scatterSplit_spec ([1, 2, 3] : List ℤ)).1,
   (scatterSplit_spec ([1, 2, 3] : List ℤ)).2 (by decide)⟩

/-! Helper lemmas about `to_hexadecimal`. -/

lemma hexChar_spec :
    ∀ d, d < 16 →
      hex_codes.get? d = some (String.mk [hexChar d])
      ∧ hexCharVal (hexChar d) = d
      ∧ hexChar d ∈ hexDigitChars := by
  decide

lemma string_foldl_append_data :
    ∀ (l : List String) (acc : String),
      (l.foldl (fun r s => r ++ s) acc).data
        = acc.data ++ (l.map String.data).flatten
  | [], acc => by simp
  | s :: rest, acc => by
    simp [string_foldl_append_data rest (acc ++ s), String.data_append]

lemma string_join_data (l : List String) :
    (String.join l).data = (l.map String.data).flatten := by
  have h := string_foldl_append_data l ""
  simpa [String.join] using h

lemma hexPairs_some (values : List ℕ) (h : ∀ c ∈ values, c ≤ 255) :
    hexPairs values
      = some (values.map
          (fun c => String.mk [hexChar (c / 16), hexChar (c % 16)])) := by
  induction values with
  | nil => rfl
  | cons c cs ih =>
    have hc : c ≤ 255 := h c (List.mem_cons_self c cs)
    have e1 := (hexChar_spec (c / 16) (by omega)).1
    have e2 := (hexChar_spec (c % 16) (by omega)).1
    have ihs := ih (fun x hx => h x (List.mem_cons_of_mem c hx))
    have hmk : String.mk [hexChar (c / 16)] ++ String.mk [hexChar (c % 16)]
        = String.mk [hexChar (c / 16), hexChar (c % 16)] := rfl
    simp only [List.get?_eq_getElem?] at e1 e2
    simp [hexPairs, e1, e2, ihs, hmk]

/-- The text of a successful `to_hexadecimal`: a marker followed by two
digit characters per channel, in order. -/
lemma to_hex_some (values : List ℕ) (h : ∀ c ∈ values, c ≤ 255) :
    to_hexadecimal values
      = some ("#" ++ String.join (values.map
          (fun c => String.mk [hexChar (c / 16), hexChar (c % 16)]))) := by
  unfold to_hexadecimal
  rw [hexPairs_some values h]
  rfl

lemma hex_body_spec (values : List ℕ) (h : ∀ c ∈ values, c ≤ 255) :
    ((values.map (fun c => [hexChar (c / 16), hexChar (c % 16)])).flatten).length
        = 2 * values.length
    ∧ (∀ ch ∈ (values.map (fun c => [hexChar (c / 16), hexChar (c % 16)])).flatten,
        ch ∈ hexDigitChars)
    ∧ decodePairs (values.map (fun c => [hexChar (c / 16), hexChar (c % 16)])).flatten
        = values := by
  induction values with
  | nil => exact ⟨rfl, by simp, rfl⟩
  | cons c cs ih =>
    have hc : c ≤ 255 := h c (List.mem_cons_self c cs)
    have s1 := hexChar_spec (c / 16) (by omega)
    have s2 := hexChar_spec (c % 16) (by omega)
    obtain ⟨hlen, hmem, hdec⟩ := ih (fun x hx => h x (List.mem_cons_of_mem c hx))
    refine ⟨?_, ?_, ?_⟩
    · simp only [List.map_cons, List.flatten_cons, List.length_append, hlen,
        List.length_cons, List.length_nil, List.length_cons]
      omega
    · intro ch hch
      simp only [List.map_cons, List.flatten_cons, List.mem_append,
        List.mem_cons, List.not_mem_nil, or_false] at hch
      rcases hch with (h1 | h2) | h3
      · rw [h1]; exact s1.2.2
      · rw [h2]; exact s2.2.2
      · exact hmem ch h3
    · simp only [List.map_cons, List.flatten_cons, List.cons_append,
        List.nil_append, decodePairs, hdec, s1.2.1, s2.2.1]
      congr 1
      omega

/-- C8: `to_hexadecimal` maps `[0,0,0]` to `"#000000"` and
`[255,255,255]` to `"#ffffff"`; on any in-range channel sequence it
returns a string of a `'#'` marker followed by exactly two lowercase
hexadecimal digits per channel which decode back to the channel values;
and a 4-channel input yields 8 digits, the last two encoding the alpha
value. -/
theorem to_hexadecimal_format :
    to_hexadecimal [0, 0, 0] = some "#000000"
    ∧ to_hexadecimal [255, 255, 255] = some "#ffffff"
    ∧ (∀ values : List ℕ, (∀ c ∈ values, c ≤ 255) →
        ∃ s, to_hexadecimal values = some s
          ∧ s.data.head? = some '#'
          ∧ s.length = 1 + 2 * values.length
          ∧ (∀ ch ∈ s.data.tail, ch ∈ hexDigitChars)
          ∧ decodePairs s.data.tail = values)
    ∧ (∀ r g b a : ℕ, r ≤ 255 → g ≤ 255 → b ≤ 255 → a ≤ 255 →
        ∃ s, to_hexadecimal [r, g, b, a] = some s
          ∧ s.length = 9
          ∧ s.data.drop 7 = [hexChar (a / 16), hexChar (a % 16)]
          ∧ 16 * hexCharVal (hexChar (a / 16)) + hexCharVal (hexChar (a % 16)) = a) := by
  have key : ∀ values : List ℕ, (∀ c ∈ values, c ≤ 255) →
      ∃ s, to_hexadecimal values = some s
        ∧ s.data = '#' :: (values.map
            (fun c => [hexChar (c / 16), hexChar (c % 16)])).flatten := by
    intro values h
    refine ⟨_, to_hex_some values h, ?_⟩
    rw [String.data_append, string_join_data, List.map_map]
    rfl
  refine ⟨rfl, rfl, ?_, ?_⟩
  · intro values h
    obtain ⟨s, hs, hdata⟩ := key values h
    obtain ⟨hlen, hmem, hdec⟩ := hex_body_spec values h
    refine ⟨s, hs, ?_, ?_, ?_, ?_⟩
    · rw [hdata]; rfl
    · show s.data.length = 1 + 2 * values.length
      rw [hdata, List.length_cons, hlen]
      omega
    · rw [hdata]; exact hmem
    · rw [hdata]; exact hdec
  · intro r g b a hr hg hb ha
    obtain ⟨s, hs, hdata⟩ := key [r, g, b, a]
      (by
        intro c hc
        simp only [List.mem_cons, List.not_mem_nil, or_false] at hc
        rcases hc with rfl | rfl | rfl | rfl <;> assumption)
    refine ⟨s, hs, ?_, ?_, ?_⟩
    · show s.data.length = 9
      rw [hdata]; rfl
    · rw [hdata]; rfl
    · have s2 := hexChar_spec (a / 16) (by omega)
      have s3 := hexChar_spec (a % 16) (by omega)
      rw [s2.2.1, s3.2.1]
      omega

/-- C8 witness: the general parts of `to_hexadecimal_format` evaluated
at the channel list `[171]` and at the RGBA input `(0, 0, 0, 128)`. -/
theorem to_hexadecimal_format_witness :
    (∃ s, to_hexadecimal [171] = some s
      ∧ s.data.head? = some '#'
      ∧ s.length = 1 + 2 * ([171] : List ℕ).length
      ∧ (∀ ch ∈ s.data.tail, ch ∈ hexDigitChars)
      ∧ decodePairs s.data.tail = [171])
    ∧ (∃ s, to_hexadecimal [0, 0, 0, 128] = some s
      ∧ s.length = 9
      ∧ s.data.drop 7 = [hexChar (128 / 16), hexChar (128 % 16)]
      ∧ 16 * hexCharVal (hexChar (128 / 16)) + hexCharVal (hexChar (128 % 16)) = 128) :=
  ⟨to_hexadecimal_format.2.2.1 [171] (by decide),
   to_hexadecimal_format.2.2.2 0 0 0 128 (by decide) (by decide) (by decide) (by decide)⟩

lemma hexPairs_isSome :
    ∀ values : List ℕ, (hexPairs values).isSome ↔ ∀ c ∈ values, c ≤ 255 := by
  intro values
  constructor
  · induction values with
    | nil => intro _ c hc; cases hc
    | cons c cs ih =>
      intro hsome x hx
      cases h1 : hex_codes.get? (c / 16) with
      | none =>
        rw [List.get?_eq_getElem?] at h1
        simp [hexPairs, h1] at hsome
      | some hi =>
        cases h2 : hex_codes.get? (c % 16) with
        | none =>
          rw [List.get?_eq_getElem?] at h1 h2
          simp [hexPairs, h1, h2] at hsome
        | some lo =>
          cases h3 : hexPairs cs with
          | none =>
            rw [List.get?_eq_getElem?] at h1 h2
            simp [hexPairs, h1, h2, h3] at hsome
          | some tail =>
            have hcb : c / 16 < 16 := by
              by_contra hge
              have hnone : hex_codes.get? (c / 16) = none :=
                List.get?_eq_none.mpr
                  (by rw [show hex_codes.length = 16 from rfl]; omega)
              rw [hnone] at h1
              exact Option.noConfusion h1
            rcases List.mem_cons.mp hx with rfl | hx2
            · omega
            · exact ih (by rw [h3]; rfl) x hx2
  · intro hall
    rw [hexPairs_some values hall]
    rfl

lemma foldl_best_mem :
    ∀ (rest : List (ℕ × ℕ)) (p : ℕ × ℕ),
      rest.foldl (fun best q => if best.2 < q.2 then q else best) p ∈ p :: rest
  | [], p => List.mem_cons_self p []
  | q :: rest, p => by
    have h := foldl_best_mem rest (if p.2 < q.2 then q else p)
    simp only [List.foldl_cons]
    rcases List.mem_cons.mp h with h1 | h2
    · rw [h1]
      split
      · exact List.mem_cons_of_mem p (List.mem_cons_self q rest)
      · exact List.mem_cons_self p (q :: rest)
    · exact List.mem_cons_of_mem p (List.mem_cons_of_mem q h2)

lemma mostCommon1_mem (l : List (ℕ × ℕ)) (cn : ℕ × ℕ)
    (h : mostCommon1 l = some cn) : cn ∈ l := by
  cases l with
  | nil => simp [mostCommon1] at h
  | cons p rest =>
    simp only [mostCommon1, Option.some.injEq] at h
    rw [← h]
    exact foldl_best_mem rest p

/-- C10: `to_hexadecimal` succeeds exactly when every channel value is
at most 255 (a channel of 256 or more makes the 16-element digit-table
lookup fail), and the alpha channel the internal-node color path passes
to it — `int(255 * count / total)` for the majority count — never
exceeds 255. -/
theorem to_hexadecimal_total_iff :
    (∀ values : List ℕ, (to_hexadecimal values).isSome ↔ ∀ c ∈ values, c ≤ 255)
    ∧ (∀ counts : List (ℕ × ℕ), ∀ cn : ℕ × ℕ, mostCommon1 counts = some cn →
        255 * cn.2 / countsTotal counts ≤ 255) := by
  constructor
  · intro values
    rw [← hexPairs_isSome values]
    unfold to_hexadecimal
    cases hexPairs values <;> simp
  · intro counts cn h
    have hm := mostCommon1_mem counts cn h
    have hle : cn.2 ≤ countsTotal counts :=
      List.single_le_sum (fun x _ => Nat.zero_le x) _ (List.mem_map_of_mem _ hm)
    rcases Nat.eq_zero_or_pos (countsTotal counts) with h0 | hpos
    · simp [h0]
    · calc 255 * cn.2 / countsTotal counts
          ≤ 255 * countsTotal counts / countsTotal counts :=
            Nat.div_le_div_right (Nat.mul_le_mul_left _ hle)
        _ = 255 := Nat.mul_div_left 255 hpos

/-- C10 witness: the totality criterion evaluated at `[255, 0]`, and the
alpha bound at the counts mapping `[(0, 3), (1, 1)]`. -/
theorem to_hexadecimal_total_iff_witness :
    ((to_hexadecimal [255, 0]).isSome ↔ ∀ c ∈ ([255, 0] : List ℕ), c ≤ 255)
    ∧ 255 * 3 / countsTotal [(0, 3), (1, 1)] ≤ 255 :=
  ⟨to_hexadecimal_total_iff.1 [255, 0],
   to_hexadecimal_total_iff.2 [(0, 3), (1, 1)] (0, 3) rfl⟩

lemma ratMod2_bounds (q : ℚ) : 0 ≤ ratMod2 q ∧ ratMod2 q < 2 := by
  unfold ratMod2
  rw [ratFloor_eq]
  constructor
  · have hfl : ((⌊q / 2⌋ : ℤ) : ℚ) ≤ q / 2 := Int.floor_le _
    linarith
  · have hfl : q / 2 < ⌊q / 2⌋ + 1 := Int.lt_floor_add_one _
    linarith

lemma brew_c_eq : brew_c = 27 / 40 := by
  unfold brew_c brew_s brew_v
  norm_num

lemma brew_x_bounds (h : ℕ) : 0 ≤ brew_x h ∧ brew_x h ≤ brew_c := by
  have hmod := ratMod2_bounds ((h : ℚ) / 60)
  have hA0 : 0 ≤ ratAbs (ratMod2 ((h : ℚ) / 60) - 1) := by
    rw [ratAbs_eq_abs]; exact abs_nonneg _
  have hA1 : ratAbs (ratMod2 ((h : ℚ) / 60) - 1) ≤ 1 := by
    rw [ratAbs_eq_abs]
    exact abs_le.mpr ⟨by linarith [hmod.1], by linarith [hmod.2]⟩
  unfold brew_x
  rw [brew_c_eq]
  constructor
  · apply mul_nonneg (by norm_num)
    linarith
  · nlinarith

lemma brewChannel_le (t : ℚ) (_h0 : 0 ≤ t) (h1 : t ≤ brew_c) :
    brewChannel t ≤ 255 := by
  rw [brew_c_eq] at h1
  unfold brewChannel
  have hm : brew_m = 9 / 40 := by
    unfold brew_m brew_c brew_s brew_v; norm_num
  rw [hm]
  have hlt : (255 : ℚ) * (t + 9 / 40) < 256 := by nlinarith
  have hfl : (255 * (t + 9 / 40) : ℚ).floor < 256 := by
    rw [ratFloor_eq]
    apply Int.floor_lt.mpr
    push_cast
    linarith
  omega

lemma brewColor_bounds (h : ℕ) :
    (brewColor h).length = 3 ∧ ∀ ch ∈ brewColor h, ch ≤ 255 := by
  refine ⟨by simp [brewColor], ?_⟩
  intro ch hch
  have hx := brew_x_bounds h
  have hc0 : (0 : ℚ) ≤ brew_c := by rw [brew_c_eq]; norm_num
  have hcc : brew_c ≤ brew_c := le_refl _
  have htup : ∀ p : ℚ × ℚ × ℚ,
      (p ∈ brewRGBTable h ∨ p = ((0 : ℚ), (0 : ℚ), (0 : ℚ))) →
      (0 ≤ p.1 ∧ p.1 ≤ brew_c) ∧ (0 ≤ p.2.1 ∧ p.2.1 ≤ brew_c)
        ∧ (0 ≤ p.2.2 ∧ p.2.2 ≤ brew_c) := by
    intro p hp
    rcases hp with hp | hp
    · unfold brewRGBTable at hp
      simp only [List.mem_cons, List.not_mem_nil, or_false] at hp
      rcases hp with rfl | rfl | rfl | rfl | rfl | rfl | rfl <;>
        (refine ⟨⟨?_, ?_⟩, ⟨?_, ?_⟩, ⟨?_, ?_⟩⟩ <;>
          first
            | exact hc0
            | exact hcc
            | exact hx.1
            | exact hx.2
            | exact le_refl 0)
    · rw [hp]
      exact ⟨⟨le_refl 0, hc0⟩, ⟨le_refl 0, hc0⟩, ⟨le_refl 0, hc0⟩⟩
  have hget : (brewRGBTable h).getD (h / 60) (0, 0, 0) ∈ brewRGBTable h
      ∨ (brewRGBTable h).getD (h / 60) (0, 0, 0) = ((0 : ℚ), (0 : ℚ), (0 : ℚ)) := by
    rcases Nat.lt_or_ge (h / 60) (brewRGBTable h).length with hlt | hge
    · left
      rw [List.getD_eq_getElem _ _ hlt]
      exact List.getElem_mem hlt
    · right
      exact List.getD_eq_default _ _ hge
  obtain ⟨hb1, hb2, hb3⟩ := htup _ hget
  simp only [brewColor, List.mem_cons, List.not_mem_nil, or_false] at hch
  rcases hch with rfl | rfl | rfl
  · exact brewChannel_le _ hb1.1 hb1.2
  · exact brewChannel_le _ hb2.1 hb2.2
  · exact brewChannel_le _ hb3.1 hb3.2

/-- C2: `_color_brew` does not return exactly `n` triples for every
`n ≥ 1` — numpy's binary64 `arange` count `ceil(360.0 / (360. / n))`
rounds the quotient just above `n` for `n = 161` (and 175, 227, 229, …),
so `_color_brew 161` returns 162 RGB triples, against the claim and the
function's own docstring (`color_list : list, length n`).  At `n = 1`
(and most `n`) the count is `n` as documented. -/
theorem color_brew_161_length :
    (_color_brew 161).length = 162 ∧ (_color_brew 1).length = 1 := by
  constructor
  · simp only [_color_brew, brewHues, List.length_map, List.length_range]
    decide
  · simp only [_color_brew, brewHues, List.length_map, List.length_range]
    decide

lemma fmt2_048 : fmt2 (48 / 100 : ℚ) = "0.48" := by
  simp only [fmt2]
  rw [show (100 : ℚ) * (48 / 100) = 48 by norm_num]
  rw [floor_eval (48 : ℚ) 48 (by norm_num) (by norm_num)]
  rw [if_pos (by push_cast; norm_num : (48 : ℚ) - ((48 : ℤ) : ℚ) < 1 / 2)]
  rfl

lemma fmt2_075 : fmt2 ((3 : ℚ) / 4) = "0.75" := by
  simp only [fmt2]
  rw [show (100 : ℚ) * (3 / 4) = 75 by norm_num]
  rw [floor_eval (75 : ℚ) 75 (by norm_num) (by norm_num)]
  rw [if_pos (by push_cast; norm_num : (75 : ℚ) - ((75 : ℤ) : ℚ) < 1 / 2)]
  rfl

lemma fmt2_250 : fmt2 ((5 : ℚ) / 2) = "2.50" := by
  simp only [fmt2]
  rw [show (100 : ℚ) * (5 / 2) = 250 by norm_num]
  rw [floor_eval (250 : ℚ) 250 (by norm_num) (by norm_num)]
  rw [if_pos (by push_cast; norm_num : (250 : ℚ) - ((250 : ℤ) : ℚ) < 1 / 2)]
  rfl

/-- C4: an internal node's label is the four lines — the `samples:` line
of the counts total (Python's `'%s'` on an integer prints the same
digits as `'%d'`), the Gini impurity to two decimals, the ratio of the
most frequent class's count to the total to two decimals, and the split
condition `<feature-name> <= <threshold>` — joined by newlines. -/
theorem node_to_str_internal (feature_names class_names : List String)
    (node : TreeNode) (name : String) (cat num : ℕ)
    (hleaf : node.is_leaf = false)
    (hname : feature_names.get? node.feature = some name)
    (hmc : mostCommon1 node.counts = some (cat, num))
    (htot : countsTotal node.counts ≠ 0) :
    node_to_str feature_names class_names node
      = some (String.intercalate "\n"
          ["samples: " ++ toString (countsTotal node.counts),
           "gini: " ++ fmt2 node.gini,
           "ratio: " ++ fmt2 ((num : ℚ) / ((countsTotal node.counts : ℕ) : ℚ)),
           name ++ " <= " ++ fmt2 node.valueSplit]) := by
  simp only [List.get?_eq_getElem?] at hname
  simp [node_to_str, hleaf, hname, hmc, htot]

/-- C4 witness: the internal-node label at a concrete node with counts
`{0: 3, 1: 1}`, Gini `0.48`, threshold `2.5` and feature name `f0`. -/
theorem node_to_str_internal_witness :
    node_to_str ["f0"] []
        (.mk false 0 0 (5 / 2) (48 / 100) [(0, 3), (1, 1)] none none)
      = some "samples: 4\ngini: 0.48\nratio: 0.75\nf0 <= 2.50" := by
  rw [node_to_str_internal ["f0"] []
    (.mk false 0 0 (5 / 2) (48 / 100) [(0, 3), (1, 1)] none none)
    "f0" 0 3 rfl rfl rfl (by decide)]
  simp only [TreeNode.counts, TreeNode.gini, TreeNode.valueSplit]
  rw [show countsTotal ([(0, 3), (1, 1)] : List (ℕ × ℕ)) = 4 from rfl]
  rw [show ((3 : ℕ) : ℚ) / ((4 : ℕ) : ℚ) = (3 : ℚ) / 4 by push_cast; norm_num]
  rw [fmt2_048, fmt2_075, fmt2_250]
  rfl

/-- C5: a leaf's fill color is `to_hexadecimal` of the pure palette
triple of its class index (three channels, no alpha); an internal node's
fill color is `to_hexadecimal` of the majority class's palette triple
extended with the alpha channel `int(255 * count / total)` — an RGBA
value. -/
theorem get_node_color_spec :
    (∀ (colors : List (List ℕ)) (node : TreeNode) (rgb : List ℕ),
        node.is_leaf = true →
        colors.get? node.valueClass = some rgb →
        get_node_color colors node = to_hexadecimal rgb)
    ∧ (∀ (colors : List (List ℕ)) (node : TreeNode) (cls count : ℕ) (rgb : List ℕ),
        node.is_leaf = false →
        mostCommon1 node.counts = some (cls, count) →
        colors.get? cls = some rgb →
        countsTotal node.counts ≠ 0 →
        get_node_color colors node
          = to_hexadecimal (rgb ++ [255 * count / countsTotal node.counts])) := by
  constructor
  · intro colors node rgb hleaf hrgb
    simp only [List.get?_eq_getElem?] at hrgb
    simp [get_node_color, hleaf, hrgb]
  · intro colors node cls count rgb hleaf hmc hrgb htot
    simp only [List.get?_eq_getElem?] at hrgb
    simp [get_node_color, hleaf, hmc, hrgb, htot]

/-- C5 witness: with the one-class palette, a leaf of class 0 gets the
pure color `#e58139`, and an internal node with counts `{0: 3, 1: 1}`
gets that color with alpha `int(255 * 3 / 4) = 191`, i.e. `#e58139bf`. -/
theorem get_node_color_spec_witness :
    get_node_color (_color_brew 1) (.mk true 0 0 0 0 [] none none)
        = to_hexadecimal [229, 129, 57]
    ∧ get_node_color (_color_brew 1)
          (.mk false 0 0 (5 / 2) (48 / 100) [(0, 3), (1, 1)] none none)
        = to_hexadecimal ([229, 129, 57]
            ++ [255 * 3 / countsTotal [(0, 3), (1, 1)]]) := by
  constructor
  · apply get_node_color_spec.1 (_color_brew 1) (.mk true 0 0 0 0 [] none none)
      [229, 129, 57] rfl
    rw [color_brew_one]
    rfl
  · apply get_node_color_spec.2 (_color_brew 1)
      (.mk false 0 0 (5 / 2) (48 / 100) [(0, 3), (1, 1)] none none)
      0 3 [229, 129, 57] rfl rfl ?_ (by decide)
    rw [color_brew_one]
    rfl

/-- C4/C6 helper: `fmt2` of the ratio 1 (a single-class counts mapping). -/
lemma fmt2_1 : fmt2 (1 : ℚ) = "1.00" := by
  simp only [fmt2]
  rw [show (100 : ℚ) * 1 = 100 by norm_num]
  rw [floor_eval (100 : ℚ) 100 (by norm_num) (by norm_num)]
  rw [if_pos (by push_cast; norm_num : (100 : ℚ) - ((100 : ℤ) : ℚ) < 1 / 2)]
  rfl

/-- C6: edge statements are emitted exactly for present children, for
every internal node with arbitrary child subtrees — a leaf node (hence a
single-leaf tree) emits no edges; an internal node with no children
emits no edges; with only a right child it emits, besides that subtree's
own edges, exactly one `no`-labelled edge to that child's ID and no
`yes` edge; with only a left child exactly one `yes`-labelled edge; with
both children a `yes` edge to the left child and a `no` edge to the
right child. -/
theorem create_edges_iff_children :
    (∀ (fns cns : List String) (colors : List (List ℕ)) (ids : ℕ → String)
        (t : TreeNode) (k : ℕ) (uid : String) (stmts : List Stmt) (k1 : ℕ),
        t.is_leaf = true →
        create fns cns colors ids t k = some (uid, stmts, k1) →
        edgesOf stmts = [])
    ∧ (∀ (fns cns : List String) (colors : List (List ℕ)) (ids : ℕ → String)
        (ft vc : ℕ) (vs g : ℚ) (cnts : List (ℕ × ℕ)) (k : ℕ)
        (uid : String) (stmts : List Stmt) (k1 : ℕ),
        create fns cns colors ids (.mk false ft vc vs g cnts none none) k
          = some (uid, stmts, k1) →
        edgesOf stmts = [])
    ∧ (∀ (fns cns : List String) (colors : List (List ℕ)) (ids : ℕ → String)
        (ft vc : ℕ) (vs g : ℚ) (cnts : List (ℕ × ℕ)) (rc : TreeNode) (k : ℕ)
        (uid : String) (stmts : List Stmt) (k1 : ℕ),
        create fns cns colors ids (.mk false ft vc vs g cnts none (some rc)) k
          = some (uid, stmts, k1) →
        ∃ r_uid rs kr,
          create fns cns colors ids rc (k + 1) = some (r_uid, rs, kr)
          ∧ edgesOf stmts = edgesOf rs ++ [Stmt.edge (ids k) r_uid "no"])
    ∧ (∀ (fns cns : List String) (colors : List (List ℕ)) (ids : ℕ → String)
        (ft vc : ℕ) (vs g : ℚ) (cnts : List (ℕ × ℕ)) (lc : TreeNode) (k : ℕ)
        (uid : String) (stmts : List Stmt) (k1 : ℕ),
        create fns cns colors ids (.mk false ft vc vs g cnts (some lc) none) k
          = some (uid, stmts, k1) →
        ∃ l_uid ls kl,
          create fns cns colors ids lc (k + 1) = some (l_uid, ls, kl)
          ∧ edgesOf stmts = edgesOf ls ++ [Stmt.edge (ids k) l_uid "yes"])
    ∧ (∀ (fns cns : List String) (colors : List (List ℕ)) (ids : ℕ → String)
        (ft vc : ℕ) (vs g : ℚ) (cnts : List (ℕ × ℕ)) (lc rc : TreeNode) (k : ℕ)
        (uid : String) (stmts : List Stmt) (k1 : ℕ),
        create fns cns colors ids (.mk false ft vc vs g cnts (some lc) (some rc)) k
          = some (uid, stmts, k1) →
        ∃ l_uid ls kl r_uid rs kr,
          create fns cns colors ids lc (k + 1) = some (l_uid, ls, kl)
          ∧ create fns cns colors ids rc kl = some (r_uid, rs, kr)
          ∧ edgesOf stmts
              = (edgesOf ls ++ [Stmt.edge (ids k) l_uid "yes"])
                ++ edgesOf rs ++ [Stmt.edge (ids k) r_uid "no"]) := by
  refine ⟨?_, ?_, ?_, ?_, ?_⟩
  · intro fns cns colors ids t k uid stmts k1 hleaf h
    rcases t with ⟨lf, ft, vc, vs, g, cnts, l, r⟩
    simp only [TreeNode.is_leaf] at hleaf
    subst hleaf
    cases hns : node_to_str fns cns (.mk true ft vc vs g cnts l r) with
    | none => simp [create, hns] at h
    | some label =>
      cases hgc : get_node_color colors (.mk true ft vc vs g cnts l r) with
      | none => simp [create, hns, hgc] at h
      | some color =>
        simp only [create, hns, hgc, if_true, Option.some.injEq,
          Prod.mk.injEq] at h
        obtain ⟨-, h2, -⟩ := h
        rw [← h2]
        rfl
  · intro fns cns colors ids ft vc vs g cnts k uid stmts k1 h
    cases hns : node_to_str fns cns (.mk false ft vc vs g cnts none none) with
    | none => simp [create, hns] at h
    | some label =>
      cases hgc : get_node_color colors (.mk false ft vc vs g cnts none none) with
      | none => simp [create, hns, hgc] at h
      | some color =>
        simp only [create, hns, hgc, Bool.false_eq_true, if_false,
          Option.some.injEq, Prod.mk.injEq] at h
        obtain ⟨-, h2, -⟩ := h
        rw [← h2]
        rfl
  · intro fns cns colors ids ft vc vs g cnts rc k uid stmts k1 h
    cases hns : node_to_str fns cns (.mk false ft vc vs g cnts none (some rc)) with
    | none => simp [create, hns] at h
    | some label =>
      cases hgc : get_node_color colors (.mk false ft vc vs g cnts none (some rc)) with
      | none => simp [create, hns, hgc] at h
      | some color =>
        simp only [create, hns, hgc, Bool.false_eq_true, if_false] at h
        cases hcr : create fns cns colors ids rc (k + 1) with
        | none => rw [hcr] at h; simp at h
        | some res =>
          obtain ⟨r_uid, rs, kr⟩ := res
          rw [hcr] at h
          simp only [Option.some_bind, Option.some.injEq, Prod.mk.injEq] at h
          obtain ⟨-, h2, -⟩ := h
          refine ⟨r_uid, rs, kr, rfl, ?_⟩
          rw [← h2]
          simp [edgesOf, isEdge, List.filter_append]
  · intro fns cns colors ids ft vc vs g cnts lc k uid stmts k1 h
    cases hns : node_to_str fns cns (.mk false ft vc vs g cnts (some lc) none) with
    | none => simp [create, hns] at h
    | some label =>
      cases hgc : get_node_color colors (.mk false ft vc vs g cnts (some lc) none) with
      | none => simp [create, hns, hgc] at h
      | some color =>
        simp only [create, hns, hgc, Bool.false_eq_true, if_false] at h
        cases hcl : create fns cns colors ids lc (k + 1) with
        | none => rw [hcl] at h; simp at h
        | some res =>
          obtain ⟨l_uid, ls, kl⟩ := res
          rw [hcl] at h
          simp only [Option.some_bind, Option.some.injEq, Prod.mk.injEq] at h
          obtain ⟨-, h2, -⟩ := h
          refine ⟨l_uid, ls, kl, rfl, ?_⟩
          rw [← h2]
          simp [edgesOf, isEdge, List.filter_append]
  · intro fns cns colors ids ft vc vs g cnts lc rc k uid stmts k1 h
    cases hns : node_to_str fns cns (.mk false ft vc vs g cnts (some lc) (some rc)) with
    | none => simp [create, hns] at h
    | some label =>
      cases hgc : get_node_color colors
          (.mk false ft vc vs g cnts (some lc) (some rc)) with
      | none => simp [create, hns, hgc] at h
      | some color =>
        simp only [create, hns, hgc, Bool.false_eq_true, if_false] at h
        cases hcl : create fns cns colors ids lc (k + 1) with
        | none => rw [hcl] at h; simp at h
        | some lres =>
          obtain ⟨l_uid, ls, kl⟩ := lres
          rw [hcl] at h
          simp only [Option.some_bind] at h
          cases hcr : create fns cns colors ids rc kl with
          | none => rw [hcr] at h; simp at h
          | some rres =>
            obtain ⟨r_uid, rs, kr⟩ := rres
            rw [hcr] at h
            simp only [Option.some_bind, Option.some.injEq, Prod.mk.injEq] at h
            obtain ⟨-, h2, -⟩ := h
            refine ⟨l_uid, ls, kl, r_uid, rs, kr, rfl, hcr, ?_⟩
            rw [← h2]
            simp [edgesOf, isEdge, List.filter_append]

/-- C6 witness: an internal node with `left=None` and a (leaf) right
child renders to its node statement, the child subtree's statements, and
exactly one `no`-labelled edge — no `yes` edge. -/
theorem create_edges_iff_children_witness :
    edgesOf [Stmt.node "0" "samples: 1\ngini: 0.48\nratio: 1.00\nf0 <= 2.50" "#e58139ff",
             Stmt.node "1" "A" "#e58139",
             Stmt.edge "0" "1" "no"]
      = [Stmt.edge "0" "1" "no"] := by
  have hns : node_to_str ["f0"] ["A"]
      (.mk false 0 0 (5 / 2) (48 / 100) [(0, 1)] none
        (some (.mk true 0 0 0 0 [] none none)))
      = some "samples: 1\ngini: 0.48\nratio: 1.00\nf0 <= 2.50" := by
    have h0 : node_to_str ["f0"] ["A"]
        (.mk false 0 0 (5 / 2) (48 / 100) [(0, 1)] none
          (some (.mk true 0 0 0 0 [] none none)))
        = some (String.intercalate "\n"
            ["samples: " ++ toString (1 : ℕ),
             "gini: " ++ fmt2 ((48 : ℚ) / 100),
             "ratio: " ++ fmt2 (((1 : ℕ) : ℚ) / ((1 : ℕ) : ℚ)),
             "f0" ++ " <= " ++ fmt2 ((5 : ℚ) / 2)]) := rfl
    rw [h0, show ((1 : ℕ) : ℚ) / ((1 : ℕ) : ℚ) = (1 : ℚ) by norm_num,
      fmt2_1, fmt2_048, fmt2_250]
    rfl
  have hcreate : create ["f0"] ["A"] [[229, 129, 57]] (fun k => toString k)
      (.mk false 0 0 (5 / 2) (48 / 100) [(0, 1)] none
        (some (.mk true 0 0 0 0 [] none none))) 0
      = some ("0",
          [Stmt.node "0" "samples: 1\ngini: 0.48\nratio: 1.00\nf0 <= 2.50" "#e58139ff",
           Stmt.node "1" "A" "#e58139",
           Stmt.edge "0" "1" "no"], 2) := by
    simp only [create]
    rw [hns]
    rfl
  obtain ⟨r_uid, rs, kr, hcr, hedge⟩ :=
    create_edges_iff_children.2.2.1 ["f0"] ["A"] [[229, 129, 57]]
      (fun k => toString k) 0 0 (5 / 2) (48 / 100) [(0, 1)]
      (.mk true 0 0 0 0 [] none none) 0 "0"
      [Stmt.node "0" "samples: 1\ngini: 0.48\nratio: 1.00\nf0 <= 2.50" "#e58139ff",
       Stmt.node "1" "A" "#e58139",
       Stmt.edge "0" "1" "no"] 2 hcreate
  rw [show (0 : ℕ) + 1 = 1 from rfl] at hcr
  rw [create_leaf_A ["f0"] (fun k => toString k) 1] at hcr
  simp only [Option.some.injEq, Prod.mk.injEq] at hcr
  obtain ⟨h1, h2, h3⟩ := hcr
  rw [hedge, ← h2, ← h1]
  rfl

/-- The statement sequence of `create`, with node IDs erased, does not
depend on the random-ID stream or on the ID counter: proved by recursion
over the tree. -/
theorem create_stmtKey_indep (fns cns : List String) (colors : List (List ℕ))
    (ids1 ids2 : ℕ → String) :
    ∀ (t : TreeNode) (k1 k2 : ℕ),
      Option.map (fun r => r.2.1.map stmtKey) (create fns cns colors ids1 t k1)
        = Option.map (fun r => r.2.1.map stmtKey) (create fns cns colors ids2 t k2)
  | .mk lf ft vc vs g cnts l r, k1, k2 => by
    cases hns : node_to_str fns cns (.mk lf ft vc vs g cnts l r) with
    | none => simp [create, hns]
    | some label =>
      cases hgc : get_node_color colors (.mk lf ft vc vs g cnts l r) with
      | none => simp [create, hns, hgc]
      | some color =>
        cases lf with
        | true => simp [create, hns, hgc, stmtKey]
        | false =>
          cases l with
            | none =>
              cases r with
              | none => simp [create, hns, hgc, stmtKey]
              | some rc =>
                have ih := create_stmtKey_indep fns cns colors ids1 ids2 rc
                  (k1 + 1) (k2 + 1)
                simp only [create, hns, hgc, Bool.false_eq_true, if_false]
                cases hc1 : create fns cns colors ids1 rc (k1 + 1) with
                | none =>
                  rw [hc1] at ih
                  cases hc2 : create fns cns colors ids2 rc (k2 + 1) with
                  | some res2 => rw [hc2] at ih; simp at ih
                  | none => simp
                | some res1 =>
                  rw [hc1] at ih
                  cases hc2 : create fns cns colors ids2 rc (k2 + 1) with
                  | none => rw [hc2] at ih; simp at ih
                  | some res2 =>
                    rw [hc2] at ih
                    simp at ih
                    simp [stmtKey, ih]
            | some lc =>
              have ihl := create_stmtKey_indep fns cns colors ids1 ids2 lc
                (k1 + 1) (k2 + 1)
              cases r with
              | none =>
                simp only [create, hns, hgc, Bool.false_eq_true, if_false]
                cases hc1 : create fns cns colors ids1 lc (k1 + 1) with
                | none =>
                  rw [hc1] at ihl
                  cases hc2 : create fns cns colors ids2 lc (k2 + 1) with
                  | some res2 => rw [hc2] at ihl; simp at ihl
                  | none => simp
                | some res1 =>
                  rw [hc1] at ihl
                  cases hc2 : create fns cns colors ids2 lc (k2 + 1) with
                  | none => rw [hc2] at ihl; simp at ihl
                  | some res2 =>
                    rw [hc2] at ihl
                    simp at ihl
                    simp [stmtKey, ihl]
              | some rc =>
                simp only [create, hns, hgc, Bool.false_eq_true, if_false]
                cases hc1 : create fns cns colors ids1 lc (k1 + 1) with
                | none =>
                  rw [hc1] at ihl
                  cases hc2 : create fns cns colors ids2 lc (k2 + 1) with
                  | some res2 => rw [hc2] at ihl; simp at ihl
                  | none => simp
                | some res1 =>
                  rw [hc1] at ihl
                  cases hc2 : create fns cns colors ids2 lc (k2 + 1) with
                  | none => rw [hc2] at ihl; simp at ihl
                  | some res2 =>
                    rw [hc2] at ihl
                    simp at ihl
                    simp only [Option.some_bind]
                    have ihr := create_stmtKey_indep fns cns colors ids1 ids2 rc
                      res1.2.2 res2.2.2
                    cases hr1 : create fns cns colors ids1 rc res1.2.2 with
                    | none =>
                      rw [hr1] at ihr
                      cases hr2 : create fns cns colors ids2 rc res2.2.2 with
                      | some rres2 => rw [hr2] at ihr; simp at ihr
                      | none => simp
                    | some rres1 =>
                      rw [hr1] at ihr
                      cases hr2 : create fns cns colors ids2 rc res2.2.2 with
                      | none => rw [hr2] at ihr; simp at ihr
                      | some rres2 =>
                        rw [hr2] at ihr
                        simp at ihr
                        simp [stmtKey, ihl, ihr]
termination_by t _ _ => sizeOf t
decreasing_by all_goals (simp_wf; omega)

/-- C3: rendering the same tree and name tables twice — with any two
random-ID streams and counter offsets, i.e. any outcomes of the global
random source — produces the same statement sequence up to node IDs: the
label texts and fill colors of the node statements (and the labels of the
edge statements) agree node-for-node in emission order; the renders also
agree on whether they fail. -/
theorem create_id_independent (tree : TreeNode) (fns cns : List String)
    (ids1 ids2 : ℕ → String) :
    Option.map (fun r => r.2.1.map stmtKey)
        (create fns cns (_color_brew cns.length) ids1 tree 0)
      = Option.map (fun r => r.2.1.map stmtKey)
        (create fns cns (_color_brew cns.length) ids2 tree 0) :=
  create_stmtKey_indep fns cns (_color_brew cns.length) ids1 ids2 tree 0 0

end Blog
